import Mathlib

/-!
Shallow embedding of `vumi/persist/riak_manager.py`.

The module implements a persistence manager over the riak client:
`riak_object` builds a wire object from an optional fetched result,
`load` runs the version-migration loop, `_load_multiple` batches loads,
and `StreamingMapReduceHttpTransport` submits map-reduce jobs and decodes
chunked multipart responses.

External collaborators (the riak client library, the stdlib `json` codec
and `email` MIME parser) are modelled as parameters or as already-decoded
values, per the capability contract: fetched bodies arrive JSON-decoded,
`loads`/`dumps` and the MIME split are function parameters.
-/

namespace VumiRiak

/-- JSON values as produced by the stdlib `json` decoder (`json.loads` is
installed as the decoder for `application/json` and `text/json` in
`from_config`).  `null` also stands for Python `None`, which is what
`json.loads` returns for a JSON null.  Numbers are modelled as integers
(the wire format uses integer phase indices and integer schema versions);
objects are association lists in insertion order with unique keys. -/
inductive Json where
  | null : Json
  | bool (b : Bool) : Json
  | num (n : Int) : Json
  | str (s : String) : Json
  | arr (xs : List Json) : Json
  | obj (kvs : List (String × Json)) : Json

mutual

/-- Structural equality of JSON values; models Python `==` on decoded
JSON documents. -/
def Json.beq : Json → Json → Bool
  | .null, .null => true
  | .bool a, .bool b => a == b
  | .num a, .num b => a == b
  | .str a, .str b => a == b
  | .arr xs, .arr ys => Json.beqList xs ys
  | .obj xs, .obj ys => Json.beqObj xs ys
  | _, _ => false

def Json.beqList : List Json → List Json → Bool
  | [], [] => true
  | x :: xs, y :: ys => Json.beq x y && Json.beqList xs ys
  | _, _ => false

def Json.beqObj : List (String × Json) → List (String × Json) → Bool
  | [], [] => true
  | (k, x) :: xs, (l, y) :: ys => k == l && Json.beq x y && Json.beqObj xs ys
  | _, _ => false

end

mutual

theorem Json.eq_of_beq : ∀ a b : Json, Json.beq a b = true → a = b
  | .null, .null, _ => rfl
  | .bool a, .bool b, h => by
    simp only [Json.beq, beq_iff_eq] at h; rw [h]
  | .num a, .num b, h => by
    simp only [Json.beq, beq_iff_eq] at h; rw [h]
  | .str a, .str b, h => by
    simp only [Json.beq, beq_iff_eq] at h; rw [h]
  | .arr xs, .arr ys, h => by
    rw [Json.eqList_of_beqList xs ys h]
  | .obj xs, .obj ys, h => by
    rw [Json.eqObj_of_beqObj xs ys h]

theorem Json.eqList_of_beqList : ∀ xs ys : List Json, Json.beqList xs ys = true → xs = ys
  | [], [], _ => rfl
  | x :: xs, y :: ys, h => by
    simp only [Json.beqList, Bool.and_eq_true] at h
    rw [Json.eq_of_beq x y h.1, Json.eqList_of_beqList xs ys h.2]

theorem Json.eqObj_of_beqObj :
    ∀ xs ys : List (String × Json), Json.beqObj xs ys = true → xs = ys
  | [], [], _ => rfl
  | (k, x) :: xs, (l, y) :: ys, h => by
    simp only [Json.beqObj, Bool.and_eq_true, beq_iff_eq] at h
    rw [h.1.1, Json.eq_of_beq x y h.1.2, Json.eqObj_of_beqObj xs ys h.2]

end

mutual

theorem Json.beq_refl : ∀ a : Json, Json.beq a a = true
  | .null => rfl
  | .bool a => by simp [Json.beq]
  | .num a => by simp [Json.beq]
  | .str a => by simp [Json.beq]
  | .arr xs => by simpa [Json.beq] using Json.beqList_refl xs
  | .obj xs => by simpa [Json.beq] using Json.beqObj_refl xs

theorem Json.beqList_refl : ∀ xs : List Json, Json.beqList xs xs = true
  | [] => rfl
  | x :: xs => by
    simp only [Json.beqList, Bool.and_eq_true]
    exact ⟨Json.beq_refl x, Json.beqList_refl xs⟩

theorem Json.beqObj_refl : ∀ xs : List (String × Json), Json.beqObj xs xs = true
  | [] => rfl
  | (k, x) :: xs => by
    simp only [Json.beqObj, Bool.and_eq_true, beq_self_eq_true]
    exact ⟨⟨trivial, Json.beq_refl x⟩, Json.beqObj_refl xs⟩

end

theorem Json.beq_iff_eq (a b : Json) : Json.beq a b = true ↔ a = b :=
  ⟨Json.eq_of_beq a b, fun h => h ▸ Json.beq_refl a⟩

instance : DecidableEq Json := fun a b => decidable_of_iff _ (Json.beq_iff_eq a b)

instance {ε α : Type} [DecidableEq ε] [DecidableEq α] : DecidableEq (Except ε α) :=
  fun a b =>
    match a, b with
    | .ok x, .ok y => decidable_of_iff (x = y) (by simp)
    | .error x, .error y => decidable_of_iff (x = y) (by simp)
    | .ok _, .error _ => isFalse (by simp)
    | .error _, .ok _ => isFalse (by simp)

/-- The secondary-index entries of a fetched result's metadata, which the
store returns either as a dict (`hasattr(indexes, 'items')` holds; its
`.items()` is the list of pairs in insertion order) or directly as a list
of pairs. -/
inductive IndexShape where
  | map (kvs : List (String × String)) : IndexShape
  | pairs (kvs : List (String × String)) : IndexShape
  deriving DecidableEq

/-- The `metadata` entry of a raw fetch result:
`{ "content-type": ..., "index": ... }`. -/
structure Metadata where
  contentType : String
  index : IndexShape
  deriving DecidableEq

/-- A raw fetch result `{ metadata: ..., data: ... }`.  The `data` entry is
the body; decoding it with the content-type's registered decoder (stdlib
`json.loads`, installed in `from_config`) is the external client's job, so
the model carries it already decoded. -/
structure FetchResult where
  metadata : Metadata
  data : Json
  deriving DecidableEq

/-- The client-library `RiakObject` as used here: bucket, key, content
type, secondary indexes, and decoded data (`get_data()`; `none` models
Python `None`, the data of a nonexistent key after `reload`). -/
structure RiakObject where
  bucket : String
  key : String
  contentType : String
  indexes : List (String × String)
  data : Option Json
  deriving DecidableEq

/-- A domain class as `load` consumes it: its bucket name (via
`bucket_for_modelcls`), its declared `VERSION` (`Json.null` models a
`None` version), and its `MIGRATOR` capability.  In the source the
migrator is obtained as `modelcls.MIGRATOR(modelcls, self, data_version)`
and applied as `migrator(riak_object).get_riak_object()`; with the class
and manager fixed this is a function of the data version and the riak
object. -/
structure ModelCls where
  bucket : String
  VERSION : Json
  MIGRATOR : Json → RiakObject → RiakObject

/-- A constructed domain object: `modelcls(self, key, _riak_object=...)`.
It wraps the key and the riak object (manager reference omitted). -/
structure DomainObject where
  key : String
  riakObject : RiakObject
  deriving DecidableEq

/-- The store's contents for one bucket: what `RiakObject.reload` finds
for a key (`none` when the key does not exist, in which case the reloaded
object's data is `None`). -/
def Store : Type := String → Option FetchResult

/-- Normalization applied to the metadata index in `riak_object`:
`if hasattr(indexes, 'items'): indexes = indexes.items()`. -/
def normalizeIndexes : IndexShape → List (String × String)
  | .map kvs => kvs
  | .pairs kvs => kvs

/-- Source `riak_object(modelcls, key, result)`: build a client object for the
bucket and key; if a result was supplied, populate content type, indexes
(normalized) and data from it, otherwise initialise the data to
`{'$VERSION': modelcls.VERSION}` with content type `application/json`. -/
def riak_object (modelcls : ModelCls) (key : String) (result : Option FetchResult) :
    RiakObject :=
  match result with
  | some r =>
    { bucket := modelcls.bucket
      key := key
      contentType := r.metadata.contentType
      indexes := normalizeIndexes r.metadata.index
      data := some r.data }
  | none =>
    { bucket := modelcls.bucket
      key := key
      contentType := "application/json"
      indexes := []
      data := some (.obj [("$VERSION", modelcls.VERSION)]) }

/-- Source `riak_object.reload()`: refetch the object's key from the store.  A
found key repopulates content type, indexes and data; a missing key
leaves the object with data `None`. -/
def RiakObject.reload (st : Store) (obj : RiakObject) : RiakObject :=
  match st obj.key with
  | some r =>
    { obj with
      contentType := r.metadata.contentType
      indexes := normalizeIndexes r.metadata.index
      data := some r.data }
  | none => { obj with data := none }

/-- Errors the shallow embedding of `load` can signal: the loop ran out
of fuel (the source's `while` loop is unbounded, so divergence is modelled
by fuel exhaustion), or the payload is not a dict and
`.get('$VERSION', None)` raises `AttributeError`. -/
inductive LoadErr where
  | fuelExhausted : LoadErr
  | attrError : LoadErr
  deriving DecidableEq

/-- Python `data.get('$VERSION', None)` on the loaded payload: on a dict,
look the key up with default `None` (modelled by `Json.null`); on any
other payload Python raises `AttributeError`. -/
def Json.pyGetVersion : Json → Except LoadErr Json
  | .obj kvs => .ok ((kvs.lookup "$VERSION").getD .null)
  | _ => .error .attrError

/-- The migration loop of `load`: while the object's data is not `None`,
read its `$VERSION` (default `None`); if it equals the class's `VERSION`,
wrap the object in a domain object and return it; otherwise apply the
class's migrator to obtain the next riak object.  `fuel` bounds the number
of migration steps, which the source leaves unbounded. -/
def loadLoop (modelcls : ModelCls) (key : String) :
    Nat → RiakObject → Except LoadErr (Option DomainObject)
  | fuel, obj =>
    match obj.data with
    | none => .ok none
    | some d =>
      match d.pyGetVersion with
      | .error e => .error e
      | .ok data_version =>
        if data_version = modelcls.VERSION then
          .ok (some { key := key, riakObject := obj })
        else
          match fuel with
          | 0 => .error .fuelExhausted
          | fuel + 1 => loadLoop modelcls key fuel (modelcls.MIGRATOR data_version obj)

/-- Source `load(modelcls, key, result=None)`: build the riak object (reloading
it from the store when no result was supplied) and run the migration
loop. -/
def load (modelcls : ModelCls) (st : Store) (key : String)
    (result : Option FetchResult) (fuel : Nat) : Except LoadErr (Option DomainObject) :=
  let obj := riak_object modelcls key result
  let obj := match result with
    | none => obj.reload st
    | some _ => obj
  loadLoop modelcls key fuel obj

/-- Source `_load_multiple(modelcls, keys)`: load every key in order and keep the
results that are not `None`. -/
def load_multiple (modelcls : ModelCls) (st : Store) (fuel : Nat)
    (keys : List String) : Except LoadErr (List DomainObject) := do
  let objs ← keys.mapM (fun key => load modelcls st key none fuel)
  pure (objs.filterMap id)

/-- The header dict of an HTTP response (`response[0]`), as consulted by
`mapred` and `decode_chunked_response`: the `http_code` and
`content-type` entries.  Other entries play no role here. -/
structure RHeaders where
  http_code : Int
  contentType : String
  deriving DecidableEq

/-- Failures of the streaming transport.  `mapredError` is the exception
of `raise_mapred_error`, carrying the response headers and body (the spec
calls it MapReduceError); `phaselessUnsupported` is the exception raised
before submission when the node lacks phase-less map-reduce;
`decodeFail` stands for the stdlib exceptions a malformed response
triggers (`json.loads` errors, missing `phase`/`data` keys, `max` of an
empty dict). -/
inductive MRErr where
  | mapredError (headers : RHeaders) (body : String) : MRErr
  | phaselessUnsupported : MRErr
  | decodeFail : MRErr
  deriving DecidableEq

/-- The result of `email.message_from_string` on the fake message built
from the content-type header and the body (an external stdlib
collaborator): either a multipart message whose payload is a list of
parts, each carrying its payload string, or a single-part message whose
payload is the body text. -/
inductive MimeMsg where
  | multipart (chunks : List String) : MimeMsg
  | single (payload : String) : MimeMsg

/-- The HTTP transport state `mapred` runs against: whether the node
supports phase-less map-reduce (`self.phaseless_mapred()`), the mapred
URL path component (`self._mapred_prefix`), and the external
`self.http_request` call, mapping method, URL, request headers and
content to the response's `(headers, body)`. -/
structure Transport where
  phaseless : Bool
  mapredPath : String
  http_request : String → String → List (String × String) → String → RHeaders × String

/-- Decode one multipart chunk's payload: `json.loads` must yield a dict
with an integer `phase` and an array `data` (the chunked wire format of
the capability contract); anything else raises in the source and is
`none` here. -/
def parsePart (loads : String → Option Json) (chunk : String) :
    Option (Int × List Json) :=
  match loads chunk with
  | some (.obj kvs) =>
    match kvs.lookup "phase", kvs.lookup "data" with
    | some (.num p), some (.arr d) => some (p, d)
    | _, _ => none
  | _ => none

/-- Python `phase_results.setdefault(part['phase'], []).extend(part['data'])`:
extend the accumulated array of phase `p` in place, or append a fresh
entry for a phase not seen before. -/
def updatePhase (acc : List (Int × List Json)) (p : Int) (d : List Json) :
    List (Int × List Json) :=
  match acc with
  | [] => [(p, d)]
  | (q, l) :: rest =>
    if q = p then (q, l ++ d) :: rest else (q, l) :: updatePhase rest p d

/-- Reading `phase_results[q]`: the accumulated array of phase `q` (the
source indexes the dict only at a key known to be present, so the `[]`
returned for an absent key is never observable). -/
def lookupPhase (acc : List (Int × List Json)) (q : Int) : List Json :=
  match acc with
  | [] => []
  | (k, l) :: rest => if k = q then l else lookupPhase rest q

/-- One iteration of the `decode_chunks` loop:
`part = json.loads(chunk.get_payload())` followed by
`phase_results.setdefault(part['phase'], []).extend(part['data'])`. -/
def chunkStep (loads : String → Option Json) (acc : List (Int × List Json))
    (chunk : String) : Except MRErr (List (Int × List Json)) :=
  match parsePart loads chunk with
  | some (p, d) => .ok (updatePhase acc p d)
  | none => .error .decodeFail

/-- Source `decode_chunks(chunks)`: accumulate each chunk's `data` keyed by its
`phase`, then return the accumulated array of the maximum phase
(`phase_results[max(phase_results.keys())]`); with no chunks, `max` of an
empty sequence raises. -/
def decode_chunks (loads : String → Option Json) (chunks : List String) :
    Except MRErr (List Json) := do
  let phase_results ← chunks.foldlM (chunkStep loads) []
  match (phase_results.map Prod.fst).max? with
  | none => Except.error MRErr.decodeFail
  | some m => Except.ok (lookupPhase phase_results m)

/-- Python `not payload.strip()`: the payload is empty or whitespace-only.
(Python's strip also removes `\x0b` and `\x0c`; they play no role
here.) -/
def isBlank (s : String) : Bool := s.data.all Char.isWhitespace

/-- Source `decode_chunked_response(headers, body)`: parse the body as a MIME
message under the response's content type (`mime`, the external stdlib
parser).  Multipart payloads go through `decode_chunks`; otherwise the
single payload is one JSON document, an empty or whitespace-only payload
is read as `[]`, and a decoded dict containing `error` raises the
map-reduce error with the headers and body. -/
def decode_chunked_response (mime : String → String → MimeMsg)
    (loads : String → Option Json) (headers : RHeaders) (body : String) :
    Except MRErr Json :=
  match mime headers.contentType body with
  | .multipart chunks => (decode_chunks loads chunks).map .arr
  | .single payload =>
    let payload := if isBlank payload then "[]" else payload
    match loads payload with
    | none => .error .decodeFail
    | some result =>
      match result with
      | .obj kvs =>
        if (kvs.lookup "error").isSome then .error (.mapredError headers body)
        else .ok result
      | _ => .ok result

/-- The job document `{'inputs': inputs, 'query': query}` with the
timeout entry added when one was given. -/
def mkJob (inputs : Json) (query : Option (List Json)) (timeout : Option Int) : Json :=
  .obj ([("inputs", inputs), ("query", (query.map .arr).getD .null)] ++
    match timeout with
    | some t => [("timeout", Json.num t)]
    | none => [])

/-- The request URL `"/%s?chunked=true" % (self._mapred_prefix,)`. -/
def mapredUrl (t : Transport) : String := "/" ++ t.mapredPath ++ "?chunked=true"

/-- The submission itself:
`response = self.http_request('POST', url, headers, content)` with the
serialized job document as content. -/
def mapredResponse (dumps : Json → String) (t : Transport) (inputs : Json)
    (query : Option (List Json)) (timeout : Option Int) : RHeaders × String :=
  t.http_request "POST" (mapredUrl t) [("Content-Type", "application/json")]
    (dumps (mkJob inputs query timeout))

/-- Source `StreamingMapReduceHttpTransport.mapred(inputs, query, timeout)`:
refuse phase-less jobs when the node cannot run them, POST the job
document, raise the map-reduce error on a non-200 status, and otherwise
decode the chunked response. -/
def mapred (dumps : Json → String) (mime : String → String → MimeMsg)
    (loads : String → Option Json) (t : Transport) (inputs : Json)
    (query : Option (List Json)) (timeout : Option Int) : Except MRErr Json :=
  if ¬ t.phaseless ∧ (query = none ∨ query = some []) then
    .error .phaselessUnsupported
  else
    let response := mapredResponse dumps t inputs query timeout
    if response.1.http_code ≠ 200 then
      .error (.mapredError response.1 response.2)
    else
      decode_chunked_response mime loads response.1 response.2

/-! ### Concrete stores, classes, transports and payloads used by the
witness theorems -/

def stEmpty : Store := fun _ => none

def mcOne : ModelCls := ⟨"bucket", Json.num 1, fun _ obj => obj⟩

def resOne : FetchResult :=
  ⟨⟨"application/json", IndexShape.pairs []⟩, Json.obj [("$VERSION", Json.num 1)]⟩

def domOne : DomainObject := ⟨"k", riak_object mcOne "k" (some resOne)⟩

def mcNull : ModelCls := ⟨"bucket", Json.null, fun _ obj => obj⟩

def mcTwo : ModelCls :=
  ⟨"bucket", Json.num 2,
    fun _ obj => { obj with data := some (Json.obj [("$VERSION", Json.num 2)]) }⟩

def objNoVer : RiakObject := ⟨"bucket", "k", "application/json", [], some (Json.obj [])⟩

def resNullVer : FetchResult :=
  ⟨⟨"application/json", IndexShape.pairs []⟩, Json.obj [("$VERSION", Json.null)]⟩

def stAC : Store := fun k => if k = "A" ∨ k = "C" then some resNullVer else none

def domA : DomainObject :=
  ⟨"A", ⟨"bucket", "A", "application/json", [], some (Json.obj [("$VERSION", Json.null)])⟩⟩

def domC : DomainObject :=
  ⟨"C", ⟨"bucket", "C", "application/json", [], some (Json.obj [("$VERSION", Json.null)])⟩⟩

def dumpsW : Json → String := fun _ => "JOB"

def mimeW : String → String → MimeMsg := fun _ body => .single body

def loadsNone : String → Option Json := fun _ => none

def reqOk : String → String → List (String × String) → String → RHeaders × String :=
  fun _ _ _ _ => (⟨200, "application/json"⟩, "")

def req500 : String → String → List (String × String) → String → RHeaders × String :=
  fun _ _ _ _ => (⟨500, "text/plain"⟩, "oops")

def t500 : Transport := ⟨true, "mapred", req500⟩

def loadsC5 : String → Option Json := fun s =>
  if s = "[]" then some (.arr [])
  else if s = "ERRDOC" then some (.obj [("error", Json.str "x")])
  else none

def headersOk : RHeaders := ⟨200, "application/json"⟩

/-- The claim's precondition on migrators: the class's version is the
integer `T`, and migrating any payload at an integer version `v ≠ T`
yields a payload whose integer version is strictly closer to `T`. -/
def advancesToward (modelcls : ModelCls) (T : Int) : Prop :=
  modelcls.VERSION = Json.num T ∧
  ∀ (obj : RiakObject) (d : Json) (v : Int),
    obj.data = some d → d.pyGetVersion = .ok (.num v) → v ≠ T →
    ∃ d2 v2, (modelcls.MIGRATOR (.num v) obj).data = some d2 ∧
      d2.pyGetVersion = Except.ok (.num v2) ∧
      (T - v2).natAbs < (T - v).natAbs

def objVZero : RiakObject :=
  ⟨"bucket", "k", "application/json", [], some (Json.obj [("$VERSION", Json.num 0)])⟩

/-- The concatenation, in encounter order, of the `data` arrays of the
parts whose phase index is `p`. -/
def phaseData : List (Int × List Json) → Int → List Json
  | [], _ => []
  | q :: rest, p => if q.1 = p then q.2 ++ phaseData rest p else phaseData rest p

/-- The accumulator after feeding a list of parsed parts through
`updatePhase`, starting from `a`. -/
def accPhases (a : List (Int × List Json)) (parts : List (Int × List Json)) :
    List (Int × List Json) :=
  parts.foldl (fun acc q => updatePhase acc q.1 q.2) a

def loadsTwoPhases : String → Option Json := fun s =>
  if s = "c0" then some (.obj [("phase", Json.num 0), ("data", Json.arr [Json.num 1])])
  else if s = "c1" then
    some (.obj [("phase", Json.num 1), ("data", Json.arr [Json.num 2, Json.num 3])])
  else none

/-! ### Helper lemmas -/

theorem loadLoop_version_eq (modelcls : ModelCls) (key : String) :
    ∀ (fuel : Nat) (obj : RiakObject) (dom : DomainObject),
      loadLoop modelcls key fuel obj = .ok (some dom) →
      ∃ d, dom.riakObject.data = some d ∧ d.pyGetVersion = .ok modelcls.VERSION := by
  intro fuel
  induction fuel with
  | zero =>
    intro obj dom h
    rw [loadLoop] at h
    cases hd : obj.data with
    | none => simp [hd] at h
    | some d =>
      cases hv : d.pyGetVersion with
      | error e => simp [hd, hv] at h
      | ok data_version =>
        simp only [hd, hv] at h
        by_cases heq : data_version = modelcls.VERSION
        · rw [if_pos heq] at h
          simp only [Except.ok.injEq, Option.some.injEq] at h
          subst h
          exact ⟨d, hd, heq ▸ hv⟩
        · rw [if_neg heq] at h
          simp at h
  | succ fuel ih =>
    intro obj dom h
    rw [loadLoop] at h
    cases hd : obj.data with
    | none => simp [hd] at h
    | some d =>
      cases hv : d.pyGetVersion with
      | error e => simp [hd, hv] at h
      | ok data_version =>
        simp only [hd, hv] at h
        by_cases heq : data_version = modelcls.VERSION
        · rw [if_pos heq] at h
          simp only [Except.ok.injEq, Option.some.injEq] at h
          subst h
          exact ⟨d, hd, heq ▸ hv⟩
        · rw [if_neg heq] at h
          exact ih _ dom h

/-! ### Claim theorems -/

/-- C1: whenever `load` returns a non-`None` domain object, the
`$VERSION` of the returned object's payload equals the class's declared
`VERSION`, regardless of the version the record was fetched at. -/
theorem load_version_invariant (modelcls : ModelCls) (st : Store) (key : String)
    (result : Option FetchResult) (fuel : Nat) (dom : DomainObject)
    (h : load modelcls st key result fuel = .ok (some dom)) :
    ∃ d, dom.riakObject.data = some d ∧ d.pyGetVersion = .ok modelcls.VERSION := by
  unfold load at h
  exact loadLoop_version_eq modelcls key fuel _ dom h

theorem load_version_invariant_witness :
    ∃ d, domOne.riakObject.data = some d ∧ d.pyGetVersion = .ok mcOne.VERSION :=
  load_version_invariant mcOne stEmpty "k" (some resOne) 0 domOne (by decide)

/-- C7: loading a key with no stored record (the reload finds nothing, so
the reloaded object's data is `None`) returns `None` and raises no
exception. -/
theorem load_absent_key_returns_none (modelcls : ModelCls) (st : Store)
    (key : String) (fuel : Nat) (h : st key = none) :
    load modelcls st key none fuel = .ok none := by
  unfold load riak_object RiakObject.reload
  simp only [h]
  rw [loadLoop]

theorem load_absent_key_returns_none_witness :
    load mcOne stEmpty "k" none 5 = .ok none :=
  load_absent_key_returns_none mcOne stEmpty "k" 5 rfl

/-- C9: a fetch result whose metadata index arrives as a mapping and one
whose index arrives as the corresponding list of pairs construct
identical riak objects (same indexes, content type and data). -/
theorem riak_object_index_normalization (modelcls : ModelCls) (key ct : String)
    (kvs : List (String × String)) (d : Json) :
    riak_object modelcls key (some ⟨⟨ct, IndexShape.map kvs⟩, d⟩) =
      riak_object modelcls key (some ⟨⟨ct, IndexShape.pairs kvs⟩, d⟩) := rfl

/-- C10: when the loaded payload is a dict without a `$VERSION` key, the
version read is `None`: if the class's `VERSION` is itself `None` the
object is returned as-is, and otherwise the class's migrator is invoked
with source version `None`. -/
theorem load_missing_version_field (modelcls : ModelCls) (key : String)
    (fuel : Nat) (obj : RiakObject) (kvs : List (String × Json))
    (hd : obj.data = some (.obj kvs)) (hk : kvs.lookup "$VERSION" = none) :
    (modelcls.VERSION = .null →
      loadLoop modelcls key (fuel + 1) obj = .ok (some ⟨key, obj⟩)) ∧
    (modelcls.VERSION ≠ .null →
      loadLoop modelcls key (fuel + 1) obj =
        loadLoop modelcls key fuel (modelcls.MIGRATOR .null obj)) := by
  have hver : (Json.obj kvs).pyGetVersion = .ok .null := by
    simp [Json.pyGetVersion, hk]
  constructor
  · intro h
    rw [loadLoop]
    simp only [hd, hver]
    rw [if_pos h.symm]
  · intro h
    rw [loadLoop]
    simp only [hd, hver]
    rw [if_neg (fun hh => h hh.symm)]

theorem load_missing_version_field_witness :
    (loadLoop mcNull "k" 1 objNoVer = .ok (some ⟨"k", objNoVer⟩)) ∧
    (loadLoop mcTwo "k" 1 objNoVer =
      loadLoop mcTwo "k" 0 (mcTwo.MIGRATOR .null objNoVer)) :=
  ⟨(load_missing_version_field mcNull "k" 0 objNoVer [] rfl rfl).1 rfl,
   (load_missing_version_field mcTwo "k" 0 objNoVer [] rfl rfl).2 (by decide)⟩

/-- C6: `_load_multiple` over any key list is the sequence of per-key
loads with the `None` results dropped; in particular over `[A, B, C]`
with `B` absent it returns `[load(A), load(C)]` in that order, without
an error for the missing key. -/
theorem load_multiple_filters_missing :
    (∀ (modelcls : ModelCls) (st : Store) (fuel : Nat) (keys : List String)
        (results : List (Option DomainObject)),
        keys.mapM (fun key => load modelcls st key none fuel) = .ok results →
        load_multiple modelcls st fuel keys = .ok (results.filterMap id)) ∧
    (∀ (modelcls : ModelCls) (st : Store) (fuel : Nat) (kA kB kC : String)
        (a c : DomainObject),
        load modelcls st kA none fuel = .ok (some a) →
        load modelcls st kB none fuel = .ok none →
        load modelcls st kC none fuel = .ok (some c) →
        load_multiple modelcls st fuel [kA, kB, kC] = .ok [a, c]) := by
  constructor
  · intro modelcls st fuel keys results h
    unfold load_multiple
    rw [h]
    rfl
  · intro modelcls st fuel kA kB kC a c hA hB hC
    have hmap : [kA, kB, kC].mapM (fun key => load modelcls st key none fuel) =
        .ok [some a, none, some c] := by
      simp only [List.mapM_cons, List.mapM_nil, hA, hB, hC]
      rfl
    unfold load_multiple
    rw [hmap]
    rfl

theorem load_multiple_filters_missing_witness :
    (load_multiple mcNull stAC 0 ["A", "B"] =
      .ok ([some domA, (none : Option DomainObject)].filterMap id)) ∧
    (load_multiple mcNull stAC 0 ["A", "B", "C"] = .ok [domA, domC]) :=
  ⟨load_multiple_filters_missing.1 mcNull stAC 0 ["A", "B"] [some domA, none] (by decide),
   load_multiple_filters_missing.2 mcNull stAC 0 "A" "B" "C" domA domC
     (by decide) (by decide) (by decide)⟩

/-- C8: a phase-less map-reduce submission (no query stages) against a
node without phase-less support fails with the phase-less-unsupported
error before any request is made (the result is this error for every
possible `http_request` behaviour). -/
theorem mapred_phaseless_error (dumps : Json → String)
    (mime : String → String → MimeMsg) (loads : String → Option Json)
    (path : String)
    (req : String → String → List (String × String) → String → RHeaders × String)
    (inputs : Json) (query : Option (List Json)) (timeout : Option Int)
    (hq : query = none ∨ query = some []) :
    mapred dumps mime loads ⟨false, path, req⟩ inputs query timeout =
      .error .phaselessUnsupported := by
  unfold mapred
  rw [if_pos]
  exact ⟨by simp, hq⟩

theorem mapred_phaseless_error_witness :
    mapred dumpsW mimeW loadsNone ⟨false, "mapred", reqOk⟩ .null none none =
      .error .phaselessUnsupported :=
  mapred_phaseless_error dumpsW mimeW loadsNone "mapred" reqOk .null none none
    (Or.inl rfl)

/-- C4: when the transport's response to a map-reduce submission carries
a non-200 status, `mapred` fails with the map-reduce error carrying that
response's headers and body, and never decodes the body (the result is
this error for every MIME parser and JSON decoder). -/
theorem mapred_non_success_error (dumps : Json → String)
    (mime : String → String → MimeMsg) (loads : String → Option Json)
    (t : Transport) (inputs : Json) (query : Option (List Json))
    (timeout : Option Int)
    (hq : t.phaseless = true ∨ (query ≠ none ∧ query ≠ some []))
    (hstatus : (mapredResponse dumps t inputs query timeout).1.http_code ≠ 200) :
    mapred dumps mime loads t inputs query timeout =
      .error (.mapredError (mapredResponse dumps t inputs query timeout).1
        (mapredResponse dumps t inputs query timeout).2) := by
  have hcond : ¬ (¬ t.phaseless ∧ (query = none ∨ query = some [])) := by
    rintro ⟨hnp, hq'⟩
    rcases hq with hp | ⟨h1, h2⟩
    · exact hnp hp
    · rcases hq' with h | h
      · exact h1 h
      · exact h2 h
  unfold mapred
  rw [if_neg hcond]
  simp [hstatus]

theorem mapred_non_success_error_witness :
    mapred dumpsW mimeW loadsNone t500 .null none none =
      .error (.mapredError (mapredResponse dumpsW t500 .null none none).1
        (mapredResponse dumpsW t500 .null none none).2) :=
  mapred_non_success_error dumpsW mimeW loadsNone t500 .null none none
    (Or.inl rfl) (by decide)

/-- C5: for a non-multipart response, an empty or whitespace-only payload
decodes to the empty result list with no error, and a payload whose JSON
document is a dict containing an `error` key raises the map-reduce error
carrying the headers and body. -/
theorem decode_single_payload_spec :
    (∀ (mime : String → String → MimeMsg) (loads : String → Option Json)
        (headers : RHeaders) (body p : String),
        mime headers.contentType body = .single p → isBlank p = true →
        loads "[]" = some (.arr []) →
        decode_chunked_response mime loads headers body = .ok (.arr [])) ∧
    (∀ (mime : String → String → MimeMsg) (loads : String → Option Json)
        (headers : RHeaders) (body p : String) (kvs : List (String × Json))
        (e : Json),
        mime headers.contentType body = .single p → isBlank p = false →
        loads p = some (.obj kvs) → kvs.lookup "error" = some e →
        decode_chunked_response mime loads headers body =
          .error (.mapredError headers body)) := by
  constructor
  · intro mime loads headers body p hm ht hl
    unfold decode_chunked_response
    rw [hm]
    simp [ht, hl]
  · intro mime loads headers body p kvs e hm ht hl hk
    unfold decode_chunked_response
    rw [hm]
    simp [ht, hl, hk]

theorem decode_single_payload_spec_witness :
    (decode_chunked_response mimeW loadsC5 headersOk "" = .ok (.arr [])) ∧
    (decode_chunked_response mimeW loadsC5 headersOk "ERRDOC" =
      .error (.mapredError headersOk "ERRDOC")) :=
  ⟨decode_single_payload_spec.1 mimeW loadsC5 headersOk "" "" rfl (by decide) (by decide),
   decode_single_payload_spec.2 mimeW loadsC5 headersOk "ERRDOC" "ERRDOC"
     [("error", Json.str "x")] (Json.str "x") rfl (by decide) (by decide) (by decide)⟩

/-- C3: under well-behaved migrators (each step strictly advances the
integer `$VERSION` toward the class's current version `T`), the
migration loop of `load` terminates in a finite, deterministic number of
steps — at most the distance from the start version to `T`, with one
single result for every sufficient fuel — and that result's payload is
at the current version. -/
theorem load_migration_terminates (modelcls : ModelCls) (key : String)
    (T : Int) (obj : RiakObject) (d : Json) (v : Int)
    (hwb : advancesToward modelcls T)
    (hd : obj.data = some d) (hv : d.pyGetVersion = .ok (.num v)) :
    ∃ dom : DomainObject,
      (∀ fuel, (T - v).natAbs < fuel →
        loadLoop modelcls key fuel obj = .ok (some dom)) ∧
      ∃ d2, dom.riakObject.data = some d2 ∧
        d2.pyGetVersion = .ok modelcls.VERSION := by
  suffices H : ∀ (n : Nat) (obj : RiakObject) (d : Json) (v : Int),
      (T - v).natAbs = n → obj.data = some d → d.pyGetVersion = .ok (.num v) →
      ∃ dom : DomainObject,
        (∀ fuel, n < fuel → loadLoop modelcls key fuel obj = .ok (some dom)) ∧
        ∃ d2, dom.riakObject.data = some d2 ∧
          d2.pyGetVersion = .ok modelcls.VERSION by
    exact H ((T - v).natAbs) obj d v rfl hd hv
  intro n
  induction n using Nat.strong_induction_on with
  | _ n IH =>
    intro obj d v hn hd hv
    by_cases hvT : v = T
    · subst hvT
      refine ⟨⟨key, obj⟩, ?_, ⟨d, hd, ?_⟩⟩
      · intro fuel _
        rw [loadLoop]
        simp only [hd, hv]
        rw [if_pos (hwb.1.symm)]
      · rw [hwb.1]
        exact hv
    · obtain ⟨d2, v2, hd2, hv2, hlt⟩ := hwb.2 obj d v hd hv hvT
      obtain ⟨dom, hfuel, hver⟩ :=
        IH ((T - v2).natAbs) (hn ▸ hlt) (modelcls.MIGRATOR (.num v) obj) d2 v2 rfl hd2 hv2
      refine ⟨dom, ?_, hver⟩
      intro fuel hf
      cases fuel with
      | zero => exact absurd hf (by omega)
      | succ f =>
        rw [loadLoop]
        simp only [hd, hv]
        rw [if_neg (by rw [hwb.1]; intro hh; injection hh with h3; exact hvT h3)]
        exact hfuel f (by omega)

theorem load_migration_terminates_witness :
    ∃ dom : DomainObject,
      (∀ fuel, ((2 : Int) - 0).natAbs < fuel →
        loadLoop mcTwo "k" fuel objVZero = .ok (some dom)) ∧
      ∃ d2, dom.riakObject.data = some d2 ∧
        d2.pyGetVersion = .ok mcTwo.VERSION :=
  load_migration_terminates mcTwo "k" 2 objVZero (Json.obj [("$VERSION", Json.num 0)]) 0
    ⟨rfl, fun obj d v hd hv hne =>
      ⟨Json.obj [("$VERSION", Json.num 2)], 2, rfl, rfl, by omega⟩⟩
    rfl rfl

theorem lookupPhase_updatePhase (p : Int) (d : List Json) (q : Int) :
    ∀ acc, lookupPhase (updatePhase acc p d) q =
      lookupPhase acc q ++ (if p = q then d else []) := by
  intro acc
  induction acc with
  | nil =>
    by_cases h : p = q
    · subst h; simp [updatePhase, lookupPhase]
    · simp [updatePhase, lookupPhase, h]
  | cons r rest ih =>
    obtain ⟨rk, rv⟩ := r
    by_cases hrp : rk = p
    · subst hrp
      by_cases hq : rk = q
      · subst hq; simp [updatePhase, lookupPhase]
      · simp [updatePhase, lookupPhase, hq]
    · by_cases hq : rk = q
      · subst hq
        simp [updatePhase, lookupPhase, hrp, Ne.symm hrp]
      · simp [updatePhase, lookupPhase, hrp, hq, ih]

theorem mem_keys_updatePhase (p : Int) (d : List Json) (q : Int) :
    ∀ acc, q ∈ (updatePhase acc p d).map Prod.fst ↔
      q ∈ acc.map Prod.fst ∨ q = p := by
  intro acc
  induction acc with
  | nil => simp [updatePhase]
  | cons r rest ih =>
    obtain ⟨rk, rv⟩ := r
    by_cases hrp : rk = p
    · subst hrp
      simp only [updatePhase, if_pos rfl]
      simp
      tauto
    · simp only [updatePhase, if_neg hrp]
      simp [ih]
      tauto

theorem lookupPhase_accPhases (parts : List (Int × List Json)) :
    ∀ (a : List (Int × List Json)) (q : Int),
      lookupPhase (accPhases a parts) q = lookupPhase a q ++ phaseData parts q := by
  induction parts with
  | nil => intro a q; simp [accPhases, phaseData]
  | cons r rest ih =>
    intro a q
    obtain ⟨p, d⟩ := r
    rw [show accPhases a ((p, d) :: rest) = accPhases (updatePhase a p d) rest from rfl]
    rw [ih, lookupPhase_updatePhase]
    show _ = lookupPhase a q ++ (if p = q then d ++ phaseData rest q else phaseData rest q)
    by_cases h : p = q
    · simp [h, List.append_assoc]
    · simp [h]

theorem mem_keys_accPhases (parts : List (Int × List Json)) :
    ∀ (a : List (Int × List Json)) (q : Int),
      q ∈ (accPhases a parts).map Prod.fst ↔
        q ∈ a.map Prod.fst ∨ q ∈ parts.map Prod.fst := by
  induction parts with
  | nil => intro a q; simp [accPhases]
  | cons r rest ih =>
    intro a q
    obtain ⟨p, d⟩ := r
    rw [show accPhases a ((p, d) :: rest) = accPhases (updatePhase a p d) rest from rfl]
    rw [ih, mem_keys_updatePhase]
    simp
    tauto

theorem int_max?_eq_some_iff {xs : List Int} {a : Int} :
    xs.max? = some a ↔ a ∈ xs ∧ ∀ b ∈ xs, b ≤ a := by
  have : Std.Antisymm ((· : Int) ≤ ·) := ⟨fun h1 h2 => le_antisymm h1 h2⟩
  exact List.max?_eq_some_iff (fun x => le_refl x) (fun x y => max_choice x y)
    (fun x y z => max_le_iff)

theorem max?_congr_mem {l1 l2 : List Int} (h : ∀ x, x ∈ l1 ↔ x ∈ l2) :
    l1.max? = l2.max? := by
  cases h1 : l1.max? with
  | none =>
    have he : l1 = [] := List.max?_eq_none_iff.mp h1
    subst he
    have he2 : l2 = [] := by
      cases l2 with
      | nil => rfl
      | cons x xs => exact absurd ((h x).mpr (by simp)) (by simp)
    rw [he2]
    rfl
  | some m =>
    rw [int_max?_eq_some_iff] at h1
    exact (int_max?_eq_some_iff.mpr
      ⟨(h m).mp h1.1, fun b hb => h1.2 b ((h b).mpr hb)⟩).symm

theorem ok_bind {ε α β : Type} (x : α) (f : α → Except ε β) :
    (Except.ok x >>= f) = f x := rfl

theorem foldlM_chunkStep (loads : String → Option Json) :
    ∀ (chunks : List String) (parts : List (Int × List Json))
      (a : List (Int × List Json)),
      chunks.mapM (parsePart loads) = some parts →
      chunks.foldlM (chunkStep loads) a = .ok (accPhases a parts) := by
  intro chunks
  induction chunks with
  | nil =>
    intro parts a h
    simp only [List.mapM_nil, Option.pure_def, Option.some.injEq] at h
    subst h
    rfl
  | cons c cs ih =>
    intro parts a h
    rw [List.mapM_cons] at h
    cases hq : parsePart loads c with
    | none => rw [hq] at h; simp at h
    | some q =>
      rw [hq] at h
      cases hqs : cs.mapM (parsePart loads) with
      | none => rw [hqs] at h; simp at h
      | some qs =>
        rw [hqs] at h
        simp at h
        subst h
        rw [List.foldlM_cons]
        rw [show chunkStep loads a c = .ok (updatePhase a q.1 q.2) from by
          simp only [chunkStep, hq]]
        rw [ok_bind]
        exact ih qs (updatePhase a q.1 q.2) hqs

/-- C2: for a multipart response whose chunks all parse to well-formed
parts, the decoder accumulates each part's `data` array keyed by phase
(concatenating repeated arrivals of the same phase in encounter order)
and returns exactly the accumulated array of the maximum phase index
observed, discarding every other phase's data. -/
theorem decode_chunks_max_phase (loads : String → Option Json)
    (chunks : List String) (parts : List (Int × List Json))
    (hparse : chunks.mapM (parsePart loads) = some parts)
    (hne : parts ≠ []) :
    ∃ m, (parts.map Prod.fst).max? = some m ∧
      decode_chunks loads chunks = .ok (phaseData parts m) := by
  obtain ⟨m, hm⟩ : ∃ m, (parts.map Prod.fst).max? = some m := by
    cases parts with
    | nil => exact absurd rfl hne
    | cons q rest => exact ⟨_, rfl⟩
  refine ⟨m, hm, ?_⟩
  have hkeys : ((accPhases [] parts).map Prod.fst).max? = some m := by
    rw [@max?_congr_mem _ (parts.map Prod.fst) (fun x => by
      rw [mem_keys_accPhases]; simp)]
    exact hm
  unfold decode_chunks
  rw [foldlM_chunkStep loads chunks parts [] hparse, ok_bind, hkeys]
  simp [lookupPhase_accPhases, lookupPhase]

theorem decode_chunks_max_phase_witness :
    ∃ m, (([(0, [Json.num 1]), (1, [Json.num 2, Json.num 3])].map Prod.fst).max? =
        some m) ∧
      decode_chunks loadsTwoPhases ["c0", "c1"] =
        .ok (phaseData [(0, [Json.num 1]), (1, [Json.num 2, Json.num 3])] m) :=
  decode_chunks_max_phase loadsTwoPhases ["c0", "c1"]
    [(0, [Json.num 1]), (1, [Json.num 2, Json.num 3])] (by decide) (by decide)

end VumiRiak
